import Mathlib

/-!
Verification of the SnapRate backend (`src/backend/app`).

Shallow embedding conventions:
* Python `float` timestamps and scores are modelled as exact rationals (`ℚ`).
* The mutable `SimpleRateLimiter` object (`app/rate_limiter.py`) is modelled by
  explicit state passing: each method takes the current state and the current
  clock value (`time.time()`) and returns its result together with the new state.
* `defaultdict(deque)` is modelled as a total function `String → List ℚ`
  (default value `[]`); a `deque` of timestamps is a `List ℚ`, oldest first.
-/

/-- Drop-from-the-front pruning of a client's request history, as in
`rate_limiter.py` lines 34–35: `while client_requests and
client_requests[0] < minute_ago: client_requests.popleft()`.
`popleft` repeats while the FRONT element is older than `now - 60`,
which is exactly `List.dropWhile`. -/
def pruneMinute (now : ℚ) (h : List ℚ) : List ℚ :=
  h.dropWhile (fun t => decide (t < now - 60))

/-- State of `SimpleRateLimiter` (`rate_limiter.py` lines 12–17). -/
structure SimpleRateLimiter where
  requests_per_minute : ℕ
  requests : String → List ℚ

/-- `SimpleRateLimiter.is_allowed` (`rate_limiter.py` lines 19–43):
prune entries older than 60 seconds from the front of the client's deque,
then admit iff the remaining length is strictly below `requests_per_minute`,
appending `now` on admission.  Returns `(is_allowed, remaining, new state)`;
the pruning persists in the state even when the request is denied, because
`popleft` mutates the stored deque. -/
def SimpleRateLimiter.is_allowed (rl : SimpleRateLimiter) (identifier : String)
    (now : ℚ) : Bool × ℕ × SimpleRateLimiter :=
  let client_requests := pruneMinute now (rl.requests identifier)
  if client_requests.length < rl.requests_per_minute then
    let newHist := client_requests ++ [now]
    (true, rl.requests_per_minute - newHist.length,
      { rl with requests := fun i => if i = identifier then newHist else rl.requests i })
  else
    (false, 0,
      { rl with requests := fun i => if i = identifier then client_requests else rl.requests i })

/-- Python `int()` applied to a rational: truncation toward zero. -/
def pyInt (q : ℚ) : ℤ :=
  if 0 ≤ q then ⌊q⌋ else -⌊-q⌋

/-- `SimpleRateLimiter.get_reset_time` (`rate_limiter.py` lines 45–52):
`int(time.time())` when the client's deque is empty, otherwise
`int(client_requests[0] + 60)` — sixty seconds after the oldest request. -/
def SimpleRateLimiter.get_reset_time (rl : SimpleRateLimiter) (identifier : String)
    (now : ℚ) : ℤ :=
  match rl.requests identifier with
  | [] => pyInt now
  | t :: _ => pyInt (t + 60)

/-- The number of stored timestamps that lie inside the trailing 60-second
window ending at `now` (the window uses `≥ now - 60`, matching the code's
removal of exactly those entries `< now - 60`). -/
def countMinuteWindow (now : ℚ) (h : List ℚ) : ℕ :=
  (h.filter (fun t => decide (now - 60 ≤ t))).length

-- ### Basic lemmas about `pruneMinute`

theorem pruneMinute_sublist (now : ℚ) (h : List ℚ) :
    (pruneMinute now h).Sublist h :=
  List.dropWhile_sublist _

theorem pruneMinute_eq_filter_of_sorted (now : ℚ) :
    ∀ h : List ℚ, h.Sorted (· ≤ ·) →
      pruneMinute now h = h.filter (fun t => decide (now - 60 ≤ t)) := by
  intro h
  induction h with
  | nil => intro _; rfl
  | cons a t ih =>
      intro hs
      rw [List.sorted_cons] at hs
      by_cases ha : a < now - 60
      · have hdrop : pruneMinute now (a :: t) = pruneMinute now t := by
          simp [pruneMinute, List.dropWhile, ha]
        rw [hdrop, ih hs.2, List.filter_cons]
        have hpa : ¬ ((fun t => decide (now - 60 ≤ t)) a = true) := by
          simp only [decide_eq_true_eq]
          exact not_le.mpr ha
        rw [if_neg hpa]
      · have hstop : pruneMinute now (a :: t) = a :: t := by
          simp [pruneMinute, List.dropWhile, ha]
        have hall : t.filter (fun t => decide (now - 60 ≤ t)) = t := by
          apply List.filter_eq_self.mpr
          intro b hb
          have hab : a ≤ b := hs.1 b hb
          simp only [decide_eq_true_eq]
          exact le_trans (not_lt.mp ha) hab
        have hpa : ((fun t => decide (now - 60 ≤ t)) a = true) := by
          simp only [decide_eq_true_eq]
          exact not_lt.mp ha
        rw [hstop, List.filter_cons, if_pos hpa, hall]

theorem pruneMinute_length_of_sorted (now : ℚ) (h : List ℚ)
    (hs : h.Sorted (· ≤ ·)) :
    (pruneMinute now h).length = countMinuteWindow now h := by
  rw [pruneMinute_eq_filter_of_sorted now h hs, countMinuteWindow]

theorem mem_pruneMinute_lower (now : ℚ) (h : List ℚ) (hs : h.Sorted (· ≤ ·)) :
    ∀ x ∈ pruneMinute now h, now - 60 ≤ x := by
  intro x hx
  rw [pruneMinute_eq_filter_of_sorted now h hs] at hx
  have := List.of_mem_filter hx
  simpa using this

theorem dropped_pruneMinute (now : ℚ) (h : List ℚ) :
    h = h.takeWhile (fun t => decide (t < now - 60)) ++ pruneMinute now h :=
  (List.takeWhile_append_dropWhile (fun t => decide (t < now - 60)) h).symm

/-- Claim C1: with a sorted stored history and a positive
`requests_per_minute`, `is_allowed` admits the request exactly when the
number of stored timestamps inside the last 60 seconds is strictly below
the limit; in particular a count equal to the limit is denied (`count ≥
limit`, not `count > limit`). -/
theorem is_allowed_iff_count_lt_limit (rl : SimpleRateLimiter)
    (identifier : String) (now : ℚ)
    (hs : (rl.requests identifier).Sorted (· ≤ ·))
    (_hpos : 0 < rl.requests_per_minute) :
    ((rl.is_allowed identifier now).1 = true ↔
      countMinuteWindow now (rl.requests identifier) < rl.requests_per_minute) := by
  have hcount := pruneMinute_length_of_sorted now (rl.requests identifier) hs
  rw [← hcount]
  by_cases hlt :
      (pruneMinute now (rl.requests identifier)).length < rl.requests_per_minute
  · simp [SimpleRateLimiter.is_allowed, hlt]
  · simp [SimpleRateLimiter.is_allowed, hlt]

def clientA : String := "alice"

def rlAtLimit : SimpleRateLimiter := ⟨1, fun _ => [100]⟩

theorem is_allowed_iff_count_lt_limit_witness :
    (rlAtLimit.requests clientA).Sorted (· ≤ ·)
    ∧ 0 < rlAtLimit.requests_per_minute
    ∧ countMinuteWindow 100 (rlAtLimit.requests clientA) = rlAtLimit.requests_per_minute
    ∧ ((rlAtLimit.is_allowed clientA 100).1 = true ↔
        countMinuteWindow 100 (rlAtLimit.requests clientA) < rlAtLimit.requests_per_minute) :=
  ⟨by simp [rlAtLimit], by norm_num [rlAtLimit],
   by norm_num [rlAtLimit, countMinuteWindow],
   is_allowed_iff_count_lt_limit rlAtLimit clientA 100 (by simp [rlAtLimit])
     (by norm_num [rlAtLimit])⟩

/-- Claim C3: a call to `is_allowed` leaves the client's stored history equal
to the pruned history, with the current timestamp appended exactly when the
call returned allowed (never when it was denied); the entries removed by the
pruning are precisely a front segment of already-expired timestamps
(`t < now - 60`). -/
theorem is_allowed_history_append_iff (rl : SimpleRateLimiter)
    (identifier : String) (now : ℚ) :
    ((rl.is_allowed identifier now).2.2.requests identifier
        = pruneMinute now (rl.requests identifier)
          ++ (if (rl.is_allowed identifier now).1 then [now] else []))
    ∧ (∃ dropped : List ℚ,
        rl.requests identifier = dropped ++ pruneMinute now (rl.requests identifier)
        ∧ dropped.all (fun t => decide (t < now - 60)) = true) := by
  constructor
  · by_cases hlt :
        (pruneMinute now (rl.requests identifier)).length < rl.requests_per_minute
    · simp [SimpleRateLimiter.is_allowed, hlt]
    · simp [SimpleRateLimiter.is_allowed, hlt]
  · refine ⟨(rl.requests identifier).takeWhile (fun t => decide (t < now - 60)),
      dropped_pruneMinute now _, ?_⟩
    rw [List.all_eq_true]
    intro t ht
    have hpt := List.mem_takeWhile_imp ht
    simpa using hpt

theorem ceil_max_zero (x : ℚ) : ⌈max 0 x⌉ = max 0 ⌈x⌉ := by
  rcases le_total x 0 with hx | hx
  · rw [max_eq_left hx, Int.ceil_zero]
    have hc : ⌈x⌉ ≤ 0 := by
      rw [show (0 : ℤ) = ⌈(0 : ℚ)⌉ from Int.ceil_zero.symm]
      exact Int.ceil_mono hx
    rw [max_eq_left hc]
  · rw [max_eq_right hx]
    have hc : (0 : ℤ) ≤ ⌈x⌉ := by
      rw [show (0 : ℤ) = ⌈(0 : ℚ)⌉ from Int.ceil_zero.symm]
      exact Int.ceil_mono hx
    rw [max_eq_right hc]

/-- Modelled from the spec: the deny-path `Retry-After` computation of the
minute window, which lives in the `RateLimitStore` header construction absent
from `src/` (only `SimpleRateLimiter.get_reset_time` is present there).  Per
spec §4.2 step 6: `60 − (now − oldest_in_window)`, floored at 0 and rounded
up to an integer. -/
def retryAfterMinute (now oldest : ℚ) : ℤ :=
  ⌈max 0 (60 - (now - oldest))⌉

/-- Claim C4: for a client with a non-empty history, the reset moment
returned by `get_reset_time` is the oldest stored timestamp plus 60 seconds
(truncated to an integer, as Python's `int()` does), and the spec-modelled
minute-window `Retry-After` value equals the ceiling of the signed wait
`(oldest + 60) − now`, floored at 0 — i.e. the two formulations
`60 − (now − oldest)` and `reset_moment − now` agree. -/
theorem get_reset_time_eq_oldest_add_sixty (rl : SimpleRateLimiter)
    (identifier : String) (now : ℚ)
    (hne : rl.requests identifier ≠ []) :
    rl.get_reset_time identifier now = pyInt ((rl.requests identifier).headI + 60)
    ∧ retryAfterMinute now ((rl.requests identifier).headI)
        = max 0 ⌈((rl.requests identifier).headI + 60) - now⌉ := by
  obtain ⟨t, rest, hh⟩ := List.exists_cons_of_ne_nil hne
  constructor
  · simp [SimpleRateLimiter.get_reset_time, hh]
  · rw [hh]
    unfold retryAfterMinute
    have harg : (60 : ℚ) - (now - (t :: rest).headI) = ((t :: rest).headI + 60) - now := by
      ring
    rw [harg, ceil_max_zero]

theorem get_reset_time_eq_oldest_add_sixty_witness :
    rlAtLimit.requests clientA ≠ []
    ∧ (rlAtLimit.get_reset_time clientA 130
          = pyInt ((rlAtLimit.requests clientA).headI + 60)
       ∧ retryAfterMinute 130 ((rlAtLimit.requests clientA).headI)
          = max 0 ⌈((rlAtLimit.requests clientA).headI + 60) - (130 : ℚ)⌉) :=
  ⟨by simp [rlAtLimit],
   get_reset_time_eq_oldest_add_sixty rlAtLimit clientA 130 (by simp [rlAtLimit])⟩

/-- The per-client history invariant of claim C6: the stored timestamp
sequence is ascending, and every entry lies inside the trailing 60-second
window (the window `SimpleRateLimiter` tracks) ending at the moment `t` of
the last prune. -/
def HistInv (h : List ℚ) (t : ℚ) : Prop :=
  h.Sorted (· ≤ ·) ∧ ∀ x ∈ h, t - 60 ≤ x ∧ x ≤ t

theorem sorted_pruneMinute (now : ℚ) (h : List ℚ) (hs : h.Sorted (· ≤ ·)) :
    (pruneMinute now h).Sorted (· ≤ ·) :=
  List.Pairwise.sublist (pruneMinute_sublist now h) hs

/-- Claim C6: assuming the clock is nondecreasing (`t0 ≤ now`), any
`is_allowed` call made at time `now` against a state satisfying the history
invariant at `t0` re-establishes the invariant at `now` for the touched
client: the stored sequence stays ascending and every remaining timestamp
lies within the trailing 60-second window ending at `now`. -/
theorem is_allowed_preserves_HistInv (rl : SimpleRateLimiter)
    (identifier : String) (now t0 : ℚ)
    (hinv : HistInv (rl.requests identifier) t0) (hmono : t0 ≤ now) :
    HistInv ((rl.is_allowed identifier now).2.2.requests identifier) now := by
  obtain ⟨hsort, hbound⟩ := hinv
  have hps : (pruneMinute now (rl.requests identifier)).Sorted (· ≤ ·) :=
    sorted_pruneMinute now _ hsort
  have hplow := mem_pruneMinute_lower now (rl.requests identifier) hsort
  have hpmem : ∀ x ∈ pruneMinute now (rl.requests identifier),
      x ∈ rl.requests identifier :=
    fun x hx => List.Sublist.mem hx (pruneMinute_sublist now _)
  have hpbound : ∀ x ∈ pruneMinute now (rl.requests identifier),
      now - 60 ≤ x ∧ x ≤ now := by
    intro x hx
    exact ⟨hplow x hx, le_trans (hbound x (hpmem x hx)).2 hmono⟩
  by_cases hlt :
      (pruneMinute now (rl.requests identifier)).length < rl.requests_per_minute
  · have hupd : (rl.is_allowed identifier now).2.2.requests identifier
        = pruneMinute now (rl.requests identifier) ++ [now] := by
      simp [SimpleRateLimiter.is_allowed, hlt]
    rw [hupd]
    constructor
    · have hpw : List.Pairwise (· ≤ ·)
          (pruneMinute now (rl.requests identifier) ++ [now]) := by
        rw [List.pairwise_append]
        refine ⟨hps, List.pairwise_singleton _ _, ?_⟩
        intro x hx y hy
        rw [List.mem_singleton] at hy
        subst hy
        exact (hpbound x hx).2
      exact hpw
    · intro x hx
      rw [List.mem_append, List.mem_singleton] at hx
      rcases hx with hx | hx
      · exact hpbound x hx
      · rw [hx]
        exact ⟨by linarith, le_refl now⟩
  · have hupd : (rl.is_allowed identifier now).2.2.requests identifier
        = pruneMinute now (rl.requests identifier) := by
      simp [SimpleRateLimiter.is_allowed, hlt]
    rw [hupd]
    exact ⟨hps, hpbound⟩

theorem is_allowed_preserves_HistInv_witness :
    HistInv (rlAtLimit.requests clientA) 100
    ∧ (100 : ℚ) ≤ 130
    ∧ HistInv ((rlAtLimit.is_allowed clientA 130).2.2.requests clientA) 130 :=
  ⟨⟨by simp [rlAtLimit], by intro x hx; simp [rlAtLimit] at hx; subst hx; norm_num⟩,
   by norm_num,
   is_allowed_preserves_HistInv rlAtLimit clientA 130 100
     ⟨by simp [rlAtLimit], by intro x hx; simp [rlAtLimit] at hx; subst hx; norm_num⟩
     (by norm_num)⟩

theorem is_allowed_decision_congr (rl1 rl2 : SimpleRateLimiter) (b : String)
    (now2 : ℚ) (hreq : rl1.requests b = rl2.requests b)
    (hlim : rl1.requests_per_minute = rl2.requests_per_minute) :
    (rl1.is_allowed b now2).1 = (rl2.is_allowed b now2).1
    ∧ (rl1.is_allowed b now2).2.1 = (rl2.is_allowed b now2).2.1 := by
  unfold SimpleRateLimiter.is_allowed
  rw [hreq, hlim]
  by_cases hlt : (pruneMinute now2 (rl2.requests b)).length < rl2.requests_per_minute
  · simp [hlt]
  · simp [hlt]

/-- Claim C7: for distinct clients `a ≠ b`, a call `is_allowed a` leaves
`b`'s stored history untouched, and consequently the allow/deny decision and
the remaining count of `b`'s next call (at any time `now2`) are exactly what
they would have been on the original state. -/
theorem is_allowed_frame_distinct (rl : SimpleRateLimiter) (a b : String)
    (now now2 : ℚ) (hab : a ≠ b) :
    ((rl.is_allowed a now).2.2.requests b = rl.requests b)
    ∧ (((rl.is_allowed a now).2.2.is_allowed b now2).1 = (rl.is_allowed b now2).1
    ∧ (((rl.is_allowed a now).2.2.is_allowed b now2).2.1
        = (rl.is_allowed b now2).2.1)) := by
  have hba : b ≠ a := hab.symm
  have hreq : (rl.is_allowed a now).2.2.requests b = rl.requests b := by
    by_cases hlt :
        (pruneMinute now (rl.requests a)).length < rl.requests_per_minute
    · simp [SimpleRateLimiter.is_allowed, hlt, hba]
    · simp [SimpleRateLimiter.is_allowed, hlt, hba]
  have hlim : (rl.is_allowed a now).2.2.requests_per_minute
      = rl.requests_per_minute := by
    by_cases hlt :
        (pruneMinute now (rl.requests a)).length < rl.requests_per_minute
    · simp [SimpleRateLimiter.is_allowed, hlt]
    · simp [SimpleRateLimiter.is_allowed, hlt]
  exact ⟨hreq, is_allowed_decision_congr _ _ b now2 hreq hlim⟩

def clientB : String := "bob"

theorem is_allowed_frame_distinct_witness :
    clientA ≠ clientB
    ∧ (((rlAtLimit.is_allowed clientA 130).2.2.requests clientB
          = rlAtLimit.requests clientB)
    ∧ (((rlAtLimit.is_allowed clientA 130).2.2.is_allowed clientB 140).1
          = (rlAtLimit.is_allowed clientB 140).1
    ∧ (((rlAtLimit.is_allowed clientA 130).2.2.is_allowed clientB 140).2.1
          = (rlAtLimit.is_allowed clientB 140).2.1))) :=
  ⟨by simp [clientA, clientB],
   is_allowed_frame_distinct rlAtLimit clientA clientB 130 140
     (by simp [clientA, clientB])⟩

/-!
The test suite (`tests/test_rate_limiter.py`) imports `RateLimitConfig`,
`TokenBucket`, `RateLimitStore` and `RateLimitMiddleware` from
`app.rate_limiter`, but the `rate_limiter.py` under `src/` contains only
`SimpleRateLimiter`.  The richer store is therefore modelled from the spec
(§3, §4.1, §4.2): each definition below marked `Modelled from the spec`
follows the spec's words for the component absent from `src/`.
-/

/-- Modelled from the spec: `RateLimitConfig` (§3) — the three sliding-window
caps plus the cleanup interval. -/
structure RateLimitConfig where
  requests_per_minute : ℕ
  requests_per_hour : ℕ
  burst_limit : ℕ
  cleanup_interval : ℚ

/-- The client → timestamp-history mapping of `RateLimitStore`, with an
explicit finite domain so that removal of a client entry is observable. -/
abbrev StoreMap := List (String × List ℚ)

def findHist : StoreMap → String → Option (List ℚ)
  | [], _ => none
  | (k, v) :: rest, idc => if k = idc then some v else findHist rest idc

/-- Lazily-created client history (spec §4.2 step 1). -/
def getHist (m : StoreMap) (idc : String) : List ℚ :=
  (findHist m idc).getD []

def setHist : StoreMap → String → List ℚ → StoreMap
  | [], idc, h => [(idc, h)]
  | (k, v) :: rest, idc, h =>
      if k = idc then (idc, h) :: rest else (k, v) :: setHist rest idc h

def burstWindowName : String := "burst"

def minuteWindowName : String := "minute"

def hourWindowName : String := "hour"

/-- The observable outcome of one `is_allowed` call (spec §4.2 step 6):
the admission decision, the limiting window name on denial, and the
remaining-minute / remaining-hour header counts. -/
structure RLDecision where
  allowed : Bool
  window : Option String
  remainingMinute : ℤ
  remainingHour : ℤ
deriving DecidableEq

/-- Modelled from the spec: the admission decision of
`RateLimitStore.is_allowed` (§4.2 steps 2–4 and 6), absent from `src/`.
Timestamps older than one hour are pruned; the three window counts are the
entries with timestamp `≥ now − span`; the checks run in order of
strictness (burst, then minute, then hour) with `count ≥ limit` denying.
The burst window span is implementation-defined ("very recent"), so it is a
parameter `burstSpan` of the model.  Remaining counts are taken after the
current decision (the admitted request itself counts). -/
def storeDecision (cfg : RateLimitConfig) (burstSpan : ℚ) (hist : List ℚ)
    (now : ℚ) : RLDecision :=
  let pruned := hist.filter (fun t => decide (now - 3600 ≤ t))
  let countMinute := (pruned.filter (fun t => decide (now - 60 ≤ t))).length
  let countHour := (pruned.filter (fun t => decide (now - 3600 ≤ t))).length
  let countBurst := (pruned.filter (fun t => decide (now - burstSpan ≤ t))).length
  if cfg.burst_limit ≤ countBurst then
    ⟨false, some burstWindowName, (cfg.requests_per_minute : ℤ) - countMinute,
      (cfg.requests_per_hour : ℤ) - countHour⟩
  else if cfg.requests_per_minute ≤ countMinute then
    ⟨false, some minuteWindowName, (cfg.requests_per_minute : ℤ) - countMinute,
      (cfg.requests_per_hour : ℤ) - countHour⟩
  else if cfg.requests_per_hour ≤ countHour then
    ⟨false, some hourWindowName, (cfg.requests_per_minute : ℤ) - countMinute,
      (cfg.requests_per_hour : ℤ) - countHour⟩
  else
    ⟨true, none, (cfg.requests_per_minute : ℤ) - (countMinute + 1),
      (cfg.requests_per_hour : ℤ) - (countHour + 1)⟩

/-- Modelled from the spec: the client history left behind by one
`RateLimitStore.is_allowed` call (§4.2 steps 2 and 5): the hour-pruned
history, with `now` appended exactly on admission. -/
def storeNewHist (cfg : RateLimitConfig) (burstSpan : ℚ) (hist : List ℚ)
    (now : ℚ) : List ℚ :=
  let pruned := hist.filter (fun t => decide (now - 3600 ≤ t))
  if (storeDecision cfg burstSpan hist now).allowed then pruned ++ [now]
  else pruned

/-- Modelled from the spec: `RateLimitStore.is_allowed` (§4.2), absent from
`src/` — reads the calling client's (lazily created) history and writes back
the updated one. -/
def storeIsAllowed (cfg : RateLimitConfig) (burstSpan : ℚ) (m : StoreMap)
    (idc : String) (now : ℚ) : RLDecision × StoreMap :=
  let hist := getHist m idc
  (storeDecision cfg burstSpan hist now,
    setHist m idc (storeNewHist cfg burstSpan hist now))

/-- Modelled from the spec: `RateLimitStore._cleanup()` (§4.2 step 7), absent
from `src/` — for every tracked client drop history entries older than one
hour, and remove the client entry entirely when its history becomes empty. -/
def storeCleanup (now : ℚ) : StoreMap → StoreMap
  | [] => []
  | (k, v) :: rest =>
      let v2 := v.filter (fun t => decide (now - 3600 ≤ t))
      if v2 = [] then storeCleanup now rest
      else (k, v2) :: storeCleanup now rest

/-- The decision/window trace of `n` back-to-back `is_allowed` calls (all at
the same clock value `now`) by a single fresh client. -/
def callSeq (cfg : RateLimitConfig) (burstSpan : ℚ) (idc : String) (now : ℚ) :
    ℕ → List (Bool × Option String) × StoreMap
  | 0 => ([], [])
  | n + 1 =>
      let prev := callSeq cfg burstSpan idc now n
      let step := storeIsAllowed cfg burstSpan prev.2 idc now
      (prev.1 ++ [(step.1.allowed, step.1.window)], step.2)

theorem filter_replicate_of_pos (p : ℚ → Bool) (a : ℚ) (hp : p a = true) :
    ∀ n, (List.replicate n a).filter p = List.replicate n a := by
  intro n
  induction n with
  | zero => rfl
  | succ n ih => simp [List.replicate_succ, List.filter_cons, hp, ih]

theorem getHist_setHist_self (idc : String) (h : List ℚ) :
    ∀ m : StoreMap, getHist (setHist m idc h) idc = h := by
  intro m
  induction m with
  | nil => simp [setHist, getHist, findHist]
  | cons kv rest ih =>
      obtain ⟨k, v⟩ := kv
      by_cases hk : k = idc
      · simp [setHist, hk, getHist, findHist]
      · simp only [setHist, hk, if_false]
        simpa [getHist, findHist, hk] using ih

theorem storeDecision_replicate_allowed (cfg : RateLimitConfig)
    (burstSpan now : ℚ) (k : ℕ) (hbs : 0 < burstSpan)
    (hkb : k < cfg.burst_limit) (hkm : k < cfg.requests_per_minute)
    (hkh : k < cfg.requests_per_hour) :
    storeDecision cfg burstSpan (List.replicate k now) now
      = ⟨true, none, (cfg.requests_per_minute : ℤ) - (k + 1),
          (cfg.requests_per_hour : ℤ) - (k + 1)⟩
    ∧ storeNewHist cfg burstSpan (List.replicate k now) now
      = List.replicate (k + 1) now := by
  have f3600 := filter_replicate_of_pos (fun t => decide (now - 3600 ≤ t)) now
    (by simp only [decide_eq_true_eq]; linarith)
  have f60 := filter_replicate_of_pos (fun t => decide (now - 60 ≤ t)) now
    (by simp only [decide_eq_true_eq]; linarith)
  have fbs := filter_replicate_of_pos (fun t => decide (now - burstSpan ≤ t)) now
    (by simp only [decide_eq_true_eq]; linarith)
  have hdec : storeDecision cfg burstSpan (List.replicate k now) now
      = ⟨true, none, (cfg.requests_per_minute : ℤ) - (k + 1),
          (cfg.requests_per_hour : ℤ) - (k + 1)⟩ := by
    simp only [storeDecision, f3600, f60, fbs, List.length_replicate]
    rw [if_neg (not_le.mpr hkb), if_neg (not_le.mpr hkm), if_neg (not_le.mpr hkh)]
  refine ⟨hdec, ?_⟩
  simp only [storeNewHist, f3600, hdec]
  simp [List.replicate_succ']

theorem storeDecision_replicate_burst_denied (cfg : RateLimitConfig)
    (burstSpan now : ℚ) (k : ℕ) (hbs : 0 < burstSpan)
    (hkb : cfg.burst_limit ≤ k) :
    (storeDecision cfg burstSpan (List.replicate k now) now).allowed = false
    ∧ (storeDecision cfg burstSpan (List.replicate k now) now).window
        = some burstWindowName := by
  have f3600 := filter_replicate_of_pos (fun t => decide (now - 3600 ≤ t)) now
    (by simp only [decide_eq_true_eq]; linarith)
  have fbs := filter_replicate_of_pos (fun t => decide (now - burstSpan ≤ t)) now
    (by simp only [decide_eq_true_eq]; linarith)
  simp only [storeDecision, f3600, fbs, List.length_replicate]
  rw [if_pos hkb]
  exact ⟨rfl, rfl⟩

theorem callSeq_replicate (cfg : RateLimitConfig) (burstSpan : ℚ)
    (idc : String) (now : ℚ) (hbs : 0 < burstSpan)
    (hbm : cfg.burst_limit ≤ cfg.requests_per_minute)
    (hbh : cfg.burst_limit ≤ cfg.requests_per_hour) :
    ∀ k, k ≤ cfg.burst_limit →
      (callSeq cfg burstSpan idc now k).1 = List.replicate k (true, none)
      ∧ getHist (callSeq cfg burstSpan idc now k).2 idc = List.replicate k now := by
  intro k
  induction k with
  | zero => intro _; exact ⟨rfl, rfl⟩
  | succ k ih =>
      intro hk
      have hklt : k < cfg.burst_limit := Nat.lt_of_succ_le hk
      obtain ⟨ih1, ih2⟩ := ih (Nat.le_of_lt hklt)
      have hstep := storeDecision_replicate_allowed cfg burstSpan now k hbs hklt
        (Nat.lt_of_lt_of_le hklt hbm) (Nat.lt_of_lt_of_le hklt hbh)
      constructor
      · simp only [callSeq, storeIsAllowed, ih1, ih2, hstep.1,
          List.replicate_succ']
      · simp only [callSeq, storeIsAllowed, ih2, hstep.2, getHist_setHist_self]

/-- Claim C2: modelled from the spec (`RateLimitStore` is absent from
`src/`): for a fresh client issuing `burst_limit + 1` back-to-back requests
(all at the same clock value), every request up to `burst_limit` is allowed
and the `(burst_limit + 1)`-th is denied with the burst window reported as
the limiting window — in particular, with `burst_limit = 2`,
`requests_per_minute = 5`, `requests_per_hour = 20` the decision trace of 3
calls is `[True, True, False]` with window `"burst"` on the third. -/
theorem callSeq_burst_denial (cfg : RateLimitConfig) (burstSpan : ℚ)
    (idc : String) (now : ℚ) (hbs : 0 < burstSpan)
    (hbm : cfg.burst_limit ≤ cfg.requests_per_minute)
    (hbh : cfg.burst_limit ≤ cfg.requests_per_hour) :
    (callSeq cfg burstSpan idc now (cfg.burst_limit + 1)).1
      = List.replicate cfg.burst_limit (true, none)
        ++ [(false, some burstWindowName)] := by
  obtain ⟨h1, h2⟩ := callSeq_replicate cfg burstSpan idc now hbs hbm hbh
    cfg.burst_limit (le_refl _)
  have hden := storeDecision_replicate_burst_denied cfg burstSpan now
    cfg.burst_limit hbs (le_refl _)
  simp only [callSeq, storeIsAllowed, h1, h2, hden.1, hden.2]

def cfgScenario : RateLimitConfig := ⟨5, 20, 2, 300⟩

theorem callSeq_burst_denial_witness :
    (0 : ℚ) < 1
    ∧ cfgScenario.burst_limit ≤ cfgScenario.requests_per_minute
    ∧ cfgScenario.burst_limit ≤ cfgScenario.requests_per_hour
    ∧ (callSeq cfgScenario 1 clientA 1000 (cfgScenario.burst_limit + 1)).1
        = List.replicate cfgScenario.burst_limit (true, none)
          ++ [(false, some burstWindowName)] :=
  ⟨by norm_num, by norm_num [cfgScenario], by norm_num [cfgScenario],
   callSeq_burst_denial cfgScenario 1 clientA 1000 (by norm_num)
     (by norm_num [cfgScenario]) (by norm_num [cfgScenario])⟩

theorem findHist_none_of_not_mem_keys (idc : String) :
    ∀ m : StoreMap, idc ∉ m.map Prod.fst → findHist m idc = none := by
  intro m
  induction m with
  | nil => intro _; rfl
  | cons kv rest ih =>
      obtain ⟨k, v⟩ := kv
      intro hmem
      rw [List.map_cons, List.mem_cons] at hmem
      push_neg at hmem
      have hk : k ≠ idc := fun h => hmem.1 h.symm
      simp only [findHist, hk, if_false]
      exact ih hmem.2

theorem findHist_storeCleanup_none (now : ℚ) (idc : String) :
    ∀ m : StoreMap, findHist m idc = none →
      findHist (storeCleanup now m) idc = none := by
  intro m
  induction m with
  | nil => intro _; rfl
  | cons kv rest ih =>
      obtain ⟨k, v⟩ := kv
      intro hnone
      by_cases hk : k = idc
      · simp [findHist, hk] at hnone
      · simp only [findHist, hk, if_false] at hnone
        simp only [storeCleanup]
        by_cases hv : v.filter (fun t => decide (now - 3600 ≤ t)) = []
        · simp only [hv, if_pos]
          exact ih hnone
        · simp only [hv, if_neg, findHist, hk, if_false]
          exact ih hnone

theorem findHist_storeCleanup_stale (now t : ℚ) (idc : String)
    (hstale : t < now - 3600) :
    ∀ m : StoreMap, (m.map Prod.fst).Nodup → findHist m idc = some [t] →
      findHist (storeCleanup now m) idc = none := by
  intro m
  induction m with
  | nil => intro _ hfind; exact absurd hfind (by simp [findHist])
  | cons kv rest ih =>
      obtain ⟨k, v⟩ := kv
      intro hnodup hfind
      rw [List.map_cons, List.nodup_cons] at hnodup
      by_cases hk : k = idc
      · have hv : v = [t] := by
          simp only [findHist, hk, if_pos] at hfind
          exact Option.some_injective _ hfind
        have hvfilt : v.filter (fun t => decide (now - 3600 ≤ t)) = [] := by
          rw [hv]
          simp only [List.filter_cons, List.filter_nil]
          rw [if_neg]
          simp only [decide_eq_true_eq]
          intro hc
          linarith
        simp only [storeCleanup, hvfilt, if_pos]
        apply findHist_storeCleanup_none
        apply findHist_none_of_not_mem_keys
        rw [← hk]
        exact hnodup.1
      · simp only [findHist, hk, if_false] at hfind
        have hrest := ih hnodup.2 hfind
        simp only [storeCleanup]
        by_cases hv : v.filter (fun t => decide (now - 3600 ≤ t)) = []
        · simp only [hv, if_pos]
          exact hrest
        · simp only [hv, if_neg, findHist, hk, if_false]
          exact hrest

/-- Claim C5: modelled from the spec (`RateLimitStore._cleanup` is absent
from `src/`): running the cleanup sweep at time `now` on a store whose keys
are distinct and where client `idc`'s only recorded timestamp `t` is older
than the hour window removes `idc`'s entry entirely, and a subsequent
`is_allowed` call by that client yields exactly the decision of a
first-ever request (the decision against the empty store). -/
theorem storeCleanup_removes_stale_client (cfg : RateLimitConfig)
    (burstSpan : ℚ) (m : StoreMap) (idc : String) (now now2 t : ℚ)
    (hnodup : (m.map Prod.fst).Nodup)
    (hfind : findHist m idc = some [t])
    (hstale : t < now - 3600) :
    findHist (storeCleanup now m) idc = none
    ∧ (storeIsAllowed cfg burstSpan (storeCleanup now m) idc now2).1
        = (storeIsAllowed cfg burstSpan ([] : StoreMap) idc now2).1 := by
  have hnone := findHist_storeCleanup_stale now t idc hstale m hnodup hfind
  refine ⟨hnone, ?_⟩
  simp [storeIsAllowed, getHist, hnone, findHist]

def staleStore : StoreMap := [(clientA, [5])]

theorem storeCleanup_removes_stale_client_witness :
    (staleStore.map Prod.fst).Nodup
    ∧ findHist staleStore clientA = some [5]
    ∧ (5 : ℚ) < 4000 - 3600
    ∧ (findHist (storeCleanup 4000 staleStore) clientA = none
       ∧ (storeIsAllowed cfgScenario 1 (storeCleanup 4000 staleStore) clientA 4100).1
           = (storeIsAllowed cfgScenario 1 ([] : StoreMap) clientA 4100).1) :=
  ⟨by simp [staleStore], by simp [staleStore, findHist], by norm_num,
   storeCleanup_removes_stale_client cfgScenario 1 staleStore clientA 4000 4100 5
     (by simp [staleStore]) (by simp [staleStore, findHist]) (by norm_num)⟩

/-- Modelled from the spec: the `TokenBucket` primitive (§4.1), absent from
`src/` (only the tests reference it): capacity, current tokens, refill rate
in tokens per second, and the timestamp of the last refill. -/
structure TokenBucket where
  capacity : ℚ
  tokens : ℚ
  refill_rate : ℚ
  last_refill : ℚ
deriving DecidableEq

/-- Modelled from the spec: `TokenBucket.consume(n)` (§4.1) — refill by
`elapsed_seconds * refill_rate` capped at capacity, update `last_refill` to
now, then subtract `n` and allow iff `tokens ≥ n`, leaving tokens unchanged
on failure (no partial consumption). -/
def TokenBucket.consume (b : TokenBucket) (n : ℚ) (now : ℚ) : Bool × TokenBucket :=
  let refilled := min b.capacity (b.tokens + (now - b.last_refill) * b.refill_rate)
  if n ≤ refilled then
    (true, { b with tokens := refilled - n, last_refill := now })
  else
    (false, { b with tokens := refilled, last_refill := now })

/-- Modelled from the spec: `TokenBucket.get_wait_time(n)` (§4.1) — `0` when
`n` tokens are already available, else `(n − tokens) / refill_rate`. -/
def TokenBucket.get_wait_time (b : TokenBucket) (n : ℚ) : ℚ :=
  if n ≤ b.tokens then 0 else (n - b.tokens) / b.refill_rate

/-- A freshly created bucket starts full (`tokens = capacity`) with
`last_refill` at its creation time. -/
def freshBucket (capacity refill_rate created : ℚ) : TokenBucket :=
  ⟨capacity, capacity, refill_rate, created⟩

/-- Claim C9: modelled from the spec (`TokenBucket` is absent from `src/`):
on a fresh bucket of capacity `C`, `consume n` (called at the creation
instant) succeeds for every `n ≤ C`, fails for every `n > C` leaving the
bucket — tokens included — unchanged, and after consuming all `C` tokens
`get_wait_time 1` equals `1 / refill_rate`. -/
theorem tokenBucket_fresh_consume (C r t0 n : ℚ) (_hC : 0 < C) (_hr : 0 < r) :
    ((n ≤ C → ((freshBucket C r t0).consume n t0).1 = true)
      ∧ (C < n → (freshBucket C r t0).consume n t0 = (false, freshBucket C r t0)))
    ∧ TokenBucket.get_wait_time (((freshBucket C r t0).consume C t0).2) 1
        = 1 / r := by
  have href : min C (C + (t0 - t0) * r) = C := by
    rw [sub_self, zero_mul, add_zero, min_self]
  refine ⟨⟨?_, ?_⟩, ?_⟩
  · intro hn
    simp only [TokenBucket.consume, freshBucket, href]
    rw [if_pos hn]
  · intro hn
    simp only [TokenBucket.consume, freshBucket, href]
    rw [if_neg (not_le.mpr hn)]
  · have hcons : ((freshBucket C r t0).consume C t0).2
        = ⟨C, 0, r, t0⟩ := by
      simp only [TokenBucket.consume, freshBucket, href]
      rw [if_pos (le_refl C)]
      simp
    rw [hcons]
    simp only [TokenBucket.get_wait_time]
    rw [if_neg]
    · norm_num
    · simp only [not_le]
      norm_num

theorem tokenBucket_fresh_consume_witness :
    (0 : ℚ) < 10 ∧ (0 : ℚ) < 2
    ∧ ((((12 : ℚ) ≤ 10 → ((freshBucket 10 2 0).consume 12 0).1 = true)
        ∧ ((10 : ℚ) < 12 →
            (freshBucket 10 2 0).consume 12 0 = (false, freshBucket 10 2 0)))
      ∧ TokenBucket.get_wait_time (((freshBucket 10 2 0).consume 10 0).2) 1
          = 1 / 2) :=
  ⟨by norm_num, by norm_num,
   tokenBucket_fresh_consume 10 2 0 12 (by norm_num) (by norm_num)⟩

/-!
Embedding of `prediction_service.py` (`RuleBasedPredictor`).  Python floats
are modelled as exact rationals (the float literals `0.15`, `0.3`, … appear
below as `3/20`, `3/10`, …).  `PIL` image decoding is out of scope (spec
§1), so an image is modelled by the data the analysis reads from it: its
size, its mode string and the grayscale pixel values that
`image.convert('L').getdata()` would yield.  Python's `round(x, 1)` (bankers
rounding at one decimal) is `pyRound1`.
-/

def lowerChars (s : String) : List Char :=
  s.data.map Char.toLower

def charsStartWith : List Char → List Char → Bool
  | [], _ => true
  | _ :: _, [] => false
  | a :: as, b :: bs => a == b && charsStartWith as bs

/-- Python's `needle in haystack` substring test. -/
def hasSubSeq (needle : List Char) : List Char → Bool
  | [] => needle.isEmpty
  | c :: rest => charsStartWith needle (c :: rest) || hasSubSeq needle rest

/-- `sum(1 for keyword in kws if keyword in hay)`. -/
def keywordCount (kws : List String) (hay : List Char) : ℕ :=
  (kws.filter (fun k => hasSubSeq k.data hay)).length

/-- Keywords suggesting quality/premium products
(`prediction_service.py` lines 22–26). -/
def positive_keywords : List String :=
  ["premium", "luxury", "professional", "high-quality", "deluxe", "advanced",
   "superior", "excellent", "top-rated", "bestseller", "award-winning",
   "certified", "authentic", "original", "branded", "flagship"]

/-- Keywords suggesting lower quality (lines 29–32). -/
def negative_keywords : List String :=
  ["cheap", "basic", "simple", "budget", "economy", "generic",
   "knockoff", "imitation", "replica", "used", "refurbished"]

/-- Technology/feature keywords (lines 35–38). -/
def tech_keywords : List String :=
  ["wireless", "bluetooth", "smart", "digital", "hd", "4k", "led",
   "rechargeable", "waterproof", "durable", "ergonomic", "portable"]

/-- Brand indicators (lines 41–43). -/
def brand_indicators : List String :=
  ["apple", "samsung", "sony", "nike", "adidas", "canon", "nikon"]

/-- `re.search(r'[A-Z]\x7b2,\x7d', title)`: two consecutive ASCII uppercase
letters occur. -/
def hasTwoUpper : List Char → Bool
  | a :: b :: rest => (a.isUpper && b.isUpper) || hasTwoUpper (b :: rest)
  | _ => false

/-- `len(title.split())`: number of maximal whitespace-free runs. -/
def wordCountAux : Bool → List Char → ℕ
  | _, [] => 0
  | inWord, c :: rest =>
      if c.isWhitespace then wordCountAux false rest
      else (if inWord then 0 else 1) + wordCountAux true rest

structure TitleAnalysis where
  title_length_score : ℚ
  positive_score : ℚ
  tech_score : ℚ
  brand_score : ℚ
  negative_penalty : ℚ
  pattern_bonus : ℚ
  word_count : ℕ

/-- `RuleBasedPredictor.analyze_title` (`prediction_service.py` lines
45–75). -/
def analyze_title (title : String) : TitleAnalysis :=
  let title_lower := lowerChars title
  let positive_count : ℚ := (keywordCount positive_keywords title_lower : ℚ)
  let negative_count : ℚ := (keywordCount negative_keywords title_lower : ℚ)
  let tech_count : ℚ := (keywordCount tech_keywords title_lower : ℚ)
  let brand_count : ℚ := (keywordCount brand_indicators title_lower : ℚ)
  let has_numbers : ℚ := if title.data.any Char.isDigit then 1 else 0
  let has_caps : ℚ := if hasTwoUpper title.data then 1 else 0
  { title_length_score := min ((title.length : ℚ) / 50) 1
    positive_score := min (positive_count * (3/10)) 1
    tech_score := min (tech_count * (1/5)) (4/5)
    brand_score := min (brand_count * (2/5)) 1
    negative_penalty := min (negative_count * (2/5)) 1
    pattern_bonus := (1/10) * (has_numbers + has_caps)
    word_count := wordCountAux false title.data }

/-- The data `analyze_image` reads from a decoded PIL image: the size, the
mode string, and the grayscale (`convert('L')`) pixel values (0–255).
Decoding itself is delegated externally (spec §1). -/
structure PILImage where
  width : ℕ
  height : ℕ
  mode : String
  grayPixels : List ℚ

structure ImageAnalysis where
  resolution_score : ℚ
  aspect_score : ℚ
  brightness_score : ℚ
  contrast_score : ℚ

def rgbModeName : String := "RGB"

/-- Python `min` over a non-empty list (0 on the never-hit empty case). -/
def minList : List ℚ → ℚ
  | [] => 0
  | [a] => a
  | a :: b :: rest => min a (minList (b :: rest))

/-- `standard_ratios` (line 96). -/
def standard_ratios : List ℚ :=
  [1, 4/3, 3/2, 16/9, 16/10]

/-- `RuleBasedPredictor.analyze_image` (`prediction_service.py` lines
77–127).  A zero height or an RGB image with no pixels would raise a
`ZeroDivisionError` inside the `try`, landing in the `except` branch that
returns all scores 0.5; that guard is modelled explicitly. -/
def analyze_image : Option PILImage → ImageAnalysis
  | none => ⟨2/5, 1/2, 1/2, 2/5⟩
  | some img =>
      if img.height = 0 ∨ (img.mode = rgbModeName ∧ img.grayPixels = []) then
        ⟨1/2, 1/2, 1/2, 1/2⟩
      else
        let aspect_ratio : ℚ := (img.width : ℚ) / (img.height : ℚ)
        let total_pixels : ℚ := ((img.width * img.height : ℕ) : ℚ)
        let resolution_score := min (total_pixels / 1000000) 1
        let aspect_score :=
          max (1/2)
            (1 - minList (standard_ratios.map (fun r => |aspect_ratio - r|)))
        if img.mode = rgbModeName then
          let pixels := img.grayPixels
          let avg_brightness := pixels.sum / (pixels.length : ℚ)
          let brightness_score := 1 - |avg_brightness - 128| / 128
          let pixel_variance :=
            ((pixels.take 1000).map (fun p => (p - avg_brightness) ^ 2)).sum
              / ((min 1000 pixels.length : ℕ) : ℚ)
          let contrast_score := min (pixel_variance / 2000) 1
          ⟨resolution_score, aspect_score, brightness_score, contrast_score⟩
        else
          ⟨resolution_score, aspect_score, 7/10, 7/10⟩

/-- Bankers rounding of a rational to an integer — Python's `round(x)`:
nearest integer, ties to the even one. -/
def roundHalfEven (q : ℚ) : ℤ :=
  if q - ⌊q⌋ < 1/2 then ⌊q⌋
  else if 1/2 < q - ⌊q⌋ then ⌊q⌋ + 1
  else if 2 ∣ ⌊q⌋ then ⌊q⌋ else ⌊q⌋ + 1

/-- Python's `round(x, 1)`. -/
def pyRound1 (q : ℚ) : ℚ :=
  (roundHalfEven (q * 10) : ℚ) / 10

/-- `RuleBasedPredictor.predict` (`prediction_service.py` lines 140–206),
reduced to its numeric outputs `(rating, confidence)`.  The optional image
is the already-resolved one (URL fetching is I/O, out of scope); the random
jitter `random.uniform(-0.15, 0.15)` is the explicit parameter `jitter`. -/
def predictPair (title : String) (image : Option PILImage) (jitter : ℚ) :
    ℚ × ℚ :=
  let t := analyze_title title
  let ia := analyze_image image
  let title_score :=
    t.title_length_score * (3/20) + t.positive_score * (7/20)
    + t.tech_score * (1/4) + t.brand_score * (1/4)
    + t.pattern_bonus * (3/20) - t.negative_penalty * (2/5)
  let image_score :=
    ia.resolution_score * (3/10) + ia.aspect_score * (1/5)
    + ia.brightness_score * (1/4) + ia.contrast_score * (1/4)
  let combined_score := title_score * (2/5) + image_score * (3/5)
  let rating_adjustment := combined_score * (5/2)
  let final_rating := max 1 (min 5 (3 + rating_adjustment + jitter))
  let title_indicators :=
    t.positive_score + t.tech_score + t.brand_score + t.pattern_bonus
  let image_indicators :=
    (ia.resolution_score + ia.aspect_score + ia.brightness_score
      + ia.contrast_score) / 4
  let confidence :=
    max 60 (min 95 ((title_indicators * (2/5) + image_indicators * (3/5)) * 100))
  (pyRound1 final_rating, pyRound1 confidence)

theorem roundHalfEven_bounds (q : ℚ) (a b : ℤ) (ha : (a : ℚ) ≤ q)
    (hb : q ≤ (b : ℚ)) :
    a ≤ roundHalfEven q ∧ roundHalfEven q ≤ b := by
  have hfa : a ≤ ⌊q⌋ := Int.le_floor.mpr ha
  have hfb : ⌊q⌋ ≤ b := by
    have hff := Int.floor_le_floor hb
    rwa [Int.floor_intCast] at hff
  constructor
  · unfold roundHalfEven
    by_cases h1 : q - ⌊q⌋ < 1/2
    · rw [if_pos h1]; exact hfa
    · rw [if_neg h1]
      by_cases h2 : (1/2 : ℚ) < q - ⌊q⌋
      · rw [if_pos h2]; omega
      · rw [if_neg h2]
        by_cases h3 : (2 : ℤ) ∣ ⌊q⌋
        · rw [if_pos h3]; exact hfa
        · rw [if_neg h3]; omega
  · unfold roundHalfEven
    by_cases h1 : q - ⌊q⌋ < 1/2
    · rw [if_pos h1]; exact hfb
    · have hhalf : (1/2 : ℚ) ≤ q - ⌊q⌋ := not_lt.mp h1
      have hflt : ⌊q⌋ < b := by
        by_contra hc
        push_neg at hc
        have hbq : ((b : ℤ) : ℚ) ≤ ((⌊q⌋ : ℤ) : ℚ) := by exact_mod_cast hc
        have hq0 : q - ⌊q⌋ ≤ 0 := by linarith
        linarith
      rw [if_neg h1]
      by_cases h2 : (1/2 : ℚ) < q - ⌊q⌋
      · rw [if_pos h2]; omega
      · rw [if_neg h2]
        by_cases h3 : (2 : ℤ) ∣ ⌊q⌋
        · rw [if_pos h3]; omega
        · rw [if_neg h3]; omega

theorem pyRound1_mem (q : ℚ) (lo hi : ℤ) (hlo : (lo : ℚ) ≤ q)
    (hhi : q ≤ (hi : ℚ)) :
    (lo : ℚ) ≤ pyRound1 q ∧ pyRound1 q ≤ (hi : ℚ) := by
  have h1 : ((10 * lo : ℤ) : ℚ) ≤ q * 10 := by push_cast; linarith
  have h2 : q * 10 ≤ ((10 * hi : ℤ) : ℚ) := by push_cast; linarith
  obtain ⟨hl, hu⟩ := roundHalfEven_bounds (q * 10) (10 * lo) (10 * hi) h1 h2
  have hl2 : ((10 * lo : ℤ) : ℚ) ≤ (roundHalfEven (q * 10) : ℚ) := by
    exact_mod_cast hl
  have hu2 : ((roundHalfEven (q * 10) : ℤ) : ℚ) ≤ ((10 * hi : ℤ) : ℚ) := by
    exact_mod_cast hu
  unfold pyRound1
  constructor
  · push_cast at hl2 ⊢
    linarith
  · push_cast at hu2 ⊢
    linarith

theorem pyRound1_clamp_one_five (x : ℚ) :
    (1 : ℚ) ≤ pyRound1 (max 1 (min 5 x)) ∧ pyRound1 (max 1 (min 5 x)) ≤ 5 := by
  have h1 : ((1 : ℤ) : ℚ) ≤ max 1 (min 5 x) := by
    push_cast
    exact le_max_left _ _
  have h5 : max (1 : ℚ) (min 5 x) ≤ ((5 : ℤ) : ℚ) := by
    push_cast
    exact max_le (by norm_num) (min_le_left _ _)
  have hm := pyRound1_mem (max 1 (min 5 x)) 1 5 h1 h5
  constructor
  · have hml := hm.1
    push_cast at hml
    exact hml
  · have hmr := hm.2
    push_cast at hmr
    exact hmr

theorem pyRound1_clamp_sixty_ninetyfive (x : ℚ) :
    (60 : ℚ) ≤ pyRound1 (max 60 (min 95 x))
    ∧ pyRound1 (max 60 (min 95 x)) ≤ 95 := by
  have h1 : ((60 : ℤ) : ℚ) ≤ max 60 (min 95 x) := by
    push_cast
    exact le_max_left _ _
  have h5 : max (60 : ℚ) (min 95 x) ≤ ((95 : ℤ) : ℚ) := by
    push_cast
    exact max_le (by norm_num) (min_le_left _ _)
  have hm := pyRound1_mem (max 60 (min 95 x)) 60 95 h1 h5
  constructor
  · have hml := hm.1
    push_cast at hml
    exact hml
  · have hmr := hm.2
    push_cast at hmr
    exact hmr

/-- Claim C8: for every title, every optional image and every jitter in
`[-0.15, 0.15]`, the rating returned by the predictor lies in `[1, 5]`
(the clamp `max(1.0, min(5.0, ·))` runs before the one-decimal rounding,
which preserves the interval). -/
theorem predict_rating_in_range (title : String) (image : Option PILImage)
    (jitter : ℚ) (_hj1 : -(3/20 : ℚ) ≤ jitter) (_hj2 : jitter ≤ (3/20 : ℚ)) :
    (1 : ℚ) ≤ (predictPair title image jitter).1
    ∧ (predictPair title image jitter).1 ≤ 5 :=
  pyRound1_clamp_one_five _

def sampleTitle : String := "Premium Wireless Bluetooth Headphones"

theorem predict_rating_in_range_witness :
    -(3/20 : ℚ) ≤ 0 ∧ (0 : ℚ) ≤ 3/20
    ∧ ((1 : ℚ) ≤ (predictPair sampleTitle none 0).1
       ∧ (predictPair sampleTitle none 0).1 ≤ 5) :=
  ⟨by norm_num, by norm_num,
   predict_rating_in_range sampleTitle none 0 (by norm_num) (by norm_num)⟩

/-- Claim C10: for every title, every optional image and every jitter value,
the confidence percentage returned by the predictor lies in `[60, 95]` (the
clamp `max(60.0, min(95.0, ·))` runs before the one-decimal rounding, which
preserves the interval). -/
theorem predict_confidence_in_range (title : String) (image : Option PILImage)
    (jitter : ℚ) :
    (60 : ℚ) ≤ (predictPair title image jitter).2
    ∧ (predictPair title image jitter).2 ≤ 95 :=
  pyRound1_clamp_sixty_ninetyfive _
